import Mathlib

/-!
Verification of the core data-preparation pipeline of the
Bitcoin-Volatility-Prediction-Model repository.

The development shallowly embeds the three core components:

* `DataQualityPipeline` (src/data/data_quality_pipeline.py): structure
  validation, cleaning (sort / forward-backward fill / deduplication),
  price/volume/volatility validators, and the orchestration in
  `run_pipeline`.
* `VolatilityRegimeFeatures` (src/features/volatility_regime_features.py):
  quantile regime labelling, regime duration, transition probabilities,
  boundary distances, and the `create_features` entry point.
* `RegimeFeatureEngineer.create_target_variable`
  (src/features/regime_features.py): the binary volatility target.

Numeric columns are embedded as rational numbers; pandas missing-value
markers (NaN) are embedded as `none : Option ℚ`.  pandas' `Series.std()`
uses the sample standard deviation (`ddof = 1`), which is irrational in
general, so wherever the code multiplies or compares against the standard
deviation the embedding takes the standard deviation `s` as an explicit
argument constrained by `0 ≤ s` and `s ^ 2 = variance`; comparisons of the
form `threshold < value` are otherwise encoded by exact equivalent
square-free rational conditions, with bridging theorems over `ℝ`.
-/

namespace BtcVol

/-- Mean of a rational column, as computed by pandas `Series.mean()`:
the sum divided by the number of entries (`0` for an empty column, matching
the convention that the embedding picks `0` for pandas' NaN statistics). -/
def qMean (xs : List ℚ) : ℚ := xs.sum / xs.length

/-- Sample variance of a rational column: the square of pandas
`Series.std()`, which uses the default `ddof = 1` (division by `n - 1`). -/
def qVar (xs : List ℚ) : ℚ :=
  (xs.map (fun x => (x - qMean xs) ^ 2)).sum / ((xs.length : ℚ) - 1)

/-- `RegimeFeatureEngineer.create_target_variable`
(src/features/regime_features.py, lines 53-69): the binary target is `1`
iff `realized_volatility > vol_mean + vol_std`.  The standard deviation is
the square root of `qVar`, so the comparison `vol_threshold < v` is encoded
by the exact rational condition `0 < v - mean ∧ var < (v - mean) ^ 2`; the
equivalence with the square-root form is proved in
`target_label_threshold`. -/
def targetLabel (xs : List ℚ) (v : ℚ) : ℕ :=
  if 0 < v - qMean xs ∧ qVar xs < (v - qMean xs) ^ 2 then 1 else 0

/-- The whole target column: `create_target_variable` applies the threshold
test to every row of the `realized_volatility` column. -/
def targetColumn (xs : List ℚ) : List ℕ := xs.map (targetLabel xs)

/-- `np.sign` on rationals. -/
def qSign (d : ℚ) : ℚ := if 0 < d then 1 else if d < 0 then -1 else 0

/-- pandas `Series.mean()` skips missing values. -/
def optMean (xs : List (Option ℚ)) : ℚ := qMean (xs.filterMap id)

/-- pandas `Series.std() ^ 2` (ddof = 1), skipping missing values. -/
def optVar (xs : List (Option ℚ)) : ℚ := qVar (xs.filterMap id)

/-- One cell of the outlier capping in
`DataQualityPipeline.validate_volatility_data`
(src/data/data_quality_pipeline.py, lines 178-192): a value whose z-score
`|v - mean| / std` exceeds `3` is replaced by
`mean + 3 * std * np.sign(v - mean)`; other values (and missing cells,
whose z-score comparison is false in pandas) are unchanged.  `m` is the
pre-cap column mean and `s` the pre-cap standard deviation. -/
def capCell (m s : ℚ) (c : Option ℚ) : Option ℚ :=
  match c with
  | none => none
  | some v => if 3 < |v - m| / s then some (m + 3 * s * qSign (v - m)) else some v

/-- The capping pass over the whole `realized_volatility` column, using the
column's own (pre-cap) mean; the standard deviation `s` is passed
explicitly (see module comment). -/
def capColumn (xs : List (Option ℚ)) (s : ℚ) : List (Option ℚ) :=
  xs.map (capCell (optMean xs) s)

/-! ### The data-quality gate (`DataQualityPipeline`)

A raw table is a list of rows; each row has a `Date` (embedded as an
integer ordinal, pandas datetime) and seven numeric cells, each possibly
missing.  The presence of columns in the loaded CSV is tracked separately
in `PipeFrame.cols`, since `validate_data_structure` checks column names.
The `enhance_data` / `normalize_data` stages only append derived columns
that are deterministic functions of the base columns below (they never
modify a required column), so the pipeline result carries the transformed
base table plus flags recording which stages ran. -/

/-- The seven numeric required columns. -/
inductive NumCol
  | openC | highC | lowC | closeC | volumeC | logRetC | volC
deriving DecidableEq, Fintype

/-- One table row: `Date` plus the seven numeric cells (`none` = NaN). -/
structure QRow where
  date : ℤ
  openQ : Option ℚ
  highQ : Option ℚ
  lowQ : Option ℚ
  closeQ : Option ℚ
  volumeQ : Option ℚ
  logRetQ : Option ℚ
  volQ : Option ℚ
deriving DecidableEq

def getCell (c : NumCol) (r : QRow) : Option ℚ :=
  match c with
  | .openC => r.openQ
  | .highC => r.highQ
  | .lowC => r.lowQ
  | .closeC => r.closeQ
  | .volumeC => r.volumeQ
  | .logRetC => r.logRetQ
  | .volC => r.volQ

def setCell (c : NumCol) (v : Option ℚ) (r : QRow) : QRow :=
  match c with
  | .openC => { r with openQ := v }
  | .highC => { r with highQ := v }
  | .lowC => { r with lowQ := v }
  | .closeC => { r with closeQ := v }
  | .volumeC => { r with volumeQ := v }
  | .logRetC => { r with logRetQ := v }
  | .volC => { r with volQ := v }

/-- Extract one column of the table, as pandas does when a single column
is read. -/
def readCol (c : NumCol) (rows : List QRow) : List (Option ℚ) :=
  rows.map (getCell c)

/-- Write one column back into the table (column assignment). -/
def writeCol (c : NumCol) (vals : List (Option ℚ)) (rows : List QRow) : List QRow :=
  List.zipWith (fun r v => setCell c v r) rows vals

def allNumCols : List NumCol :=
  [.openC, .highC, .lowC, .closeC, .volumeC, .logRetC, .volC]

/-- `fillna(method='ffill')` on one column: a missing cell takes the most
recent earlier non-missing value (`last`), if any. -/
def ffillGo (last : Option ℚ) : List (Option ℚ) → List (Option ℚ)
  | [] => []
  | none :: t => last :: ffillGo last t
  | some v :: t => some v :: ffillGo (some v) t

def ffill (l : List (Option ℚ)) : List (Option ℚ) := ffillGo none l

/-- The next non-missing value in a column suffix. -/
def firstSome (l : List (Option ℚ)) : Option ℚ := (l.filterMap id).head?

/-- `fillna(method='bfill')` on one column: a missing cell takes the next
later non-missing value, if any. -/
def bfill : List (Option ℚ) → List (Option ℚ)
  | [] => []
  | some v :: t => some v :: bfill t
  | none :: t => firstSome t :: bfill t

/-- Forward fill followed by backward fill, as in `clean_data`:
`self.data.fillna(method='ffill').fillna(method='bfill')`. -/
def fbf (l : List (Option ℚ)) : List (Option ℚ) := bfill (ffill l)

/-- The fill pass applied to every numeric column of the table. -/
def fillTable (rows : List QRow) : List QRow :=
  allNumCols.foldl (fun rs c => writeCol c (fbf (readCol c rs)) rs) rows

/-- `sort_values('Date')` (any correct comparison sort; ties cannot arise
in the cases the theorems below depend on). -/
def sortRows (rows : List QRow) : List QRow :=
  List.insertionSort (fun a b => a.date ≤ b.date) rows

/-- `drop_duplicates(subset=['Date'])`: keep the first row of each date. -/
def dedupGo (seen : List ℤ) : List QRow → List QRow
  | [] => []
  | r :: t => if r.date ∈ seen then dedupGo seen t else r :: dedupGo (r.date :: seen) t

def dedupByDate (rows : List QRow) : List QRow := dedupGo [] rows

/-- The required column set of `validate_data_structure`. -/
def requiredCols : List String :=
  ["Date", "Open", "High", "Low", "Close", "Volume", "log_returns", "realized_volatility"]

/-- A loaded table: its column names and its rows. -/
structure PipeFrame where
  cols : List String
  rows : List QRow
deriving DecidableEq

/-- `clean_data`: drop the two cosmetic columns if present, sort by date,
reset the index (implicit in the list embedding), forward/backward fill,
and drop duplicate dates keeping the first occurrence — in that order. -/
def cleanFrame (f : PipeFrame) : PipeFrame :=
  { cols := f.cols.filter (fun c => !(c == "Dividends" || c == "Stock Splits")),
    rows := dedupByDate (fillTable (sortRows f.rows)) }

/-- Validation diagnostics (`self.validation_errors` entries). -/
inductive Diag
  | missingColumns
  | negativePrice (c : NumCol)
  | invalidOHLC
  | negativeVolume
  | zeroVolume
  | negativeVolatility
deriving DecidableEq

/-- `(series < 0)` on one cell; comparisons with NaN are false in pandas. -/
def cellNeg (c : Option ℚ) : Bool :=
  match c with
  | some v => v < 0
  | none => false

/-- `(series == 0)` on one cell. -/
def cellZero (c : Option ℚ) : Bool :=
  match c with
  | some v => v == 0
  | none => false

/-- Strict `<` between two cells; false when either is missing. -/
def optLtB : Option ℚ → Option ℚ → Bool
  | some x, some y => decide (x < y)
  | _, _ => false

def priceCols : List NumCol := [.openC, .highC, .lowC, .closeC]

/-- The OHLC consistency predicate of `validate_price_data`:
`High < Low`, or `Open > High`, or `Open < Low`, or `Close > High`, or
`Close < Low`. -/
def invalidOHLCRow (r : QRow) : Bool :=
  optLtB r.highQ r.lowQ || optLtB r.highQ r.openQ || optLtB r.openQ r.lowQ
    || optLtB r.highQ r.closeQ || optLtB r.closeQ r.lowQ

/-- Diagnostics appended by `validate_price_data`: one negative-value entry
per OHLC column containing a negative, then one entry if any row has
inconsistent OHLC. -/
def priceErrors (rows : List QRow) : List Diag :=
  ((priceCols.filter (fun c => (readCol c rows).any cellNeg)).map Diag.negativePrice)
    ++ (if rows.any invalidOHLCRow then [Diag.invalidOHLC] else [])

/-- Diagnostics appended by `validate_volume_data`: negative volume, then
exactly-zero volume. -/
def volumeErrors (rows : List QRow) : List Diag :=
  (if (readCol .volumeC rows).any cellNeg then [Diag.negativeVolume] else [])
    ++ (if (readCol .volumeC rows).any cellZero then [Diag.zeroVolume] else [])

/-- Diagnostic appended by `validate_volatility_data` for negative
volatility values. -/
def volatilityErrors (rows : List QRow) : List Diag :=
  if (readCol .volC rows).any cellNeg then [Diag.negativeVolatility] else []

/-- `validate_volatility_data`: appends its diagnostics, caps extreme
values of `realized_volatility` in place, and returns `True`
unconditionally (the literal `return True` at the end of the method). -/
def validateVolatilityStep (rows : List QRow) (s : ℚ) : List QRow × List Diag × Bool :=
  (writeCol .volC (capColumn (readCol .volC rows) s) rows, volatilityErrors rows, true)

/-- Result of `run_pipeline`: the boolean outcome, the accumulated
diagnostics, the persisted base table (`none` when nothing was written),
and flags recording whether `enhance_data` / `normalize_data` / `save_data`
were reached. -/
structure PipeResult where
  success : Bool
  errors : List Diag
  output : Option PipeFrame
  enhanced : Bool
  normalized : Bool
  saved : Bool
deriving DecidableEq

/-- `validate_data_structure`'s column check: the required columns must be
a subset of the present columns. -/
def hasRequiredCols (f : PipeFrame) : Bool :=
  requiredCols.all (f.cols.contains ·)

/-- `run_pipeline` (src/data/data_quality_pipeline.py, lines 261-316):
structure validation gates everything; cleaning; price validation gates
(`len(errors) == 0` over the cumulative list); volume validation gates the
same way; volatility validation caps and never fails; then enhance,
normalize, and save run.  `s` is the pre-cap standard deviation of the
cleaned `realized_volatility` column, passed explicitly (see module
comment). -/
def runPipeline (f : PipeFrame) (s : ℚ) : PipeResult :=
  if hasRequiredCols f = true then
    if priceErrors (cleanFrame f).rows = [] then
      if priceErrors (cleanFrame f).rows ++ volumeErrors (cleanFrame f).rows = [] then
        if (validateVolatilityStep (cleanFrame f).rows s).2.2 = true then
          { success := true,
            errors := priceErrors (cleanFrame f).rows
              ++ volumeErrors (cleanFrame f).rows
              ++ (validateVolatilityStep (cleanFrame f).rows s).2.1,
            output := some { cols := (cleanFrame f).cols,
                             rows := (validateVolatilityStep (cleanFrame f).rows s).1 },
            enhanced := true, normalized := true, saved := true }
        else
          { success := false,
            errors := priceErrors (cleanFrame f).rows
              ++ volumeErrors (cleanFrame f).rows
              ++ (validateVolatilityStep (cleanFrame f).rows s).2.1,
            output := none,
            enhanced := false, normalized := false, saved := false }
      else
        { success := false,
          errors := priceErrors (cleanFrame f).rows
            ++ volumeErrors (cleanFrame f).rows,
          output := none,
          enhanced := false, normalized := false, saved := false }
    else
      { success := false, errors := priceErrors (cleanFrame f).rows,
        output := none,
        enhanced := false, normalized := false, saved := false }
  else
    { success := false, errors := [.missingColumns], output := none,
      enhanced := false, normalized := false, saved := false }

/-! ### Regime labelling (`VolatilityRegimeFeatures`) -/

/-- The three ordered regime labels used when `n_regimes = 3`
(`['Low', 'Medium', 'High']`). -/
inductive Regime
  | low | medium | high
deriving DecidableEq

instance : Inhabited Regime := ⟨.low⟩

/-- The sorted order statistics of a column (quantile computations sort
the sample). -/
def sortedVals (xs : List ℚ) : List ℚ := List.insertionSort (· ≤ ·) xs

def nthSorted (xs : List ℚ) (i : ℕ) : ℚ := (sortedVals xs).getD i 0

/-- The `j/3` empirical quantile (`j ∈ {0,1,2,3}`) with pandas/numpy's
default linear interpolation: at fractional position `pos = j*(n-1)/3`,
`q = y_k + frac * (y_(k+1) - y_k)` where `k = ⌊pos⌋`. -/
def quantile3 (xs : List ℚ) (j : ℕ) : ℚ :=
  nthSorted xs (j * (xs.length - 1) / 3)
    + (((j * (xs.length - 1)) % 3 : ℕ) : ℚ) / 3
      * (nthSorted xs (j * (xs.length - 1) / 3 + 1)
        - nthSorted xs (j * (xs.length - 1) / 3))

/-- `pd.qcut(col, q=3, labels=self.regime_labels)` as used by
`identify_regimes`: right-closed equal-frequency bins with interior
boundaries at the 1/3 and 2/3 quantiles (the first bin includes its lowest
edge, the column minimum). -/
def regimeOf (q1 q2 : ℚ) (v : ℚ) : Regime :=
  if v ≤ q1 then .low else if v ≤ q2 then .medium else .high

def qcutLabels3 (xs : List ℚ) : List Regime :=
  xs.map (regimeOf (quantile3 xs 1) (quantile3 xs 2))

/-- The size of one labelled group. -/
def regimeCount (xs : List ℚ) (a : Regime) : ℕ := (qcutLabels3 xs).count a

/-- The change indicator `df['vol_regime'] != df['vol_regime'].shift()` at
row `j`: true at row 0 (any label differs from shift's NaN) and at rows
whose label differs from the previous row's. -/
def changeFlag (l : List Regime) (j : ℕ) : Bool :=
  j == 0 || !(l.getD j default == l.getD (j - 1) default)

/-- `regime_group` at row `i` (`calculate_regime_duration`): the running
sum (`cumsum`) of the change indicator over rows `0..i`. -/
def regimeGroup (l : List Regime) (i : ℕ) : ℕ :=
  ((List.range (i + 1)).filter (changeFlag l)).length

/-- `regime_duration` at row `i`: `groupby('regime_group').cumcount()`,
the number of earlier rows belonging to the same group. -/
def regimeDuration (l : List Regime) (i : ℕ) : ℕ :=
  ((List.range i).filter (fun j => regimeGroup l j == regimeGroup l i)).length

/-- `pd.crosstab(df['vol_regime'].shift(), df['vol_regime'])` entry:
the number of one-step transitions from `a` to `b` (crosstab drops the
first row, whose shifted previous label is NaN). -/
def transCount (l : List Regime) (a b : Regime) : ℕ :=
  ((List.range (l.length - 1)).filter
    (fun i => l.getD i default == a && l.getD (i + 1) default == b)).length

/-- Row total of the crosstab (`transitions.sum(axis=1)`): the number of
occurrences of `a` as a previous label. -/
def transRowSum (l : List Regime) (a : Regime) : ℕ :=
  transCount l a .low + transCount l a .medium + transCount l a .high

/-- Row-normalised transition probability a→b
(`transitions.div(transitions.sum(axis=1), axis=0)`). -/
def transProb (l : List Regime) (a b : Regime) : ℚ :=
  (transCount l a b : ℚ) / (transRowSum l a : ℚ)

/-! ### `create_features` over a column-named frame -/

/-- A cell of the regime feature frame: numeric, or a categorical regime
label (the dtype `qcut` produces). -/
inductive Cell
  | num (q : ℚ)
  | cat (r : Regime)
deriving DecidableEq

abbrev Column := List Cell

/-- A pandas DataFrame as an ordered association list of named columns. -/
def DataFrame := List (String × Column)

instance : DecidableEq DataFrame := by
  unfold DataFrame
  infer_instance

def lookupCol (df : DataFrame) (c : String) : Option Column :=
  (df.find? (fun e => e.1 == c)).map (fun e => e.2)

/-- Column assignment `df[c] = v`: overwrite in place when the name
already exists, else append the new column at the end. -/
def setCol : DataFrame → String → Column → DataFrame
  | [], c, v => [(c, v)]
  | e :: t, c, v => if e.1 = c then (c, v) :: t else e :: setCol t c v

def cellNum : Cell → ℚ
  | .num q => q
  | .cat _ => 0

/-- Read a numeric column (`df[volatility_col]`). -/
def numColumn (df : DataFrame) (c : String) : List ℚ :=
  ((lookupCol df c).getD []).map cellNum

/-- `VolatilityRegimeFeatures.create_features`
(src/features/volatility_regime_features.py, lines 108-131): work on a
copy of the argument, then apply `identify_regimes` (adds `vol_regime`),
`calculate_regime_duration` (adds `regime_group` and `regime_duration`),
`calculate_regime_transitions` (adds the three `transition_prob_*`
columns, each row carrying the transition probabilities out of its own
label), and `calculate_regime_boundary_distance` (distances to the global
0th/100th percentile cut points). -/
def createFeatures (df : DataFrame) : DataFrame :=
  let vol := numColumn df "realized_volatility"
  let labels := qcutLabels3 vol
  let n := labels.length
  let d1 := setCol df "vol_regime" (labels.map Cell.cat)
  let d2 := setCol d1 "regime_group"
    ((List.range n).map (fun i => Cell.num (regimeGroup labels i)))
  let d3 := setCol d2 "regime_duration"
    ((List.range n).map (fun i => Cell.num (regimeDuration labels i)))
  let d4 := setCol d3 "transition_prob_Low"
    (labels.map (fun a => Cell.num (transProb labels a .low)))
  let d5 := setCol d4 "transition_prob_Medium"
    (labels.map (fun a => Cell.num (transProb labels a .medium)))
  let d6 := setCol d5 "transition_prob_High"
    (labels.map (fun a => Cell.num (transProb labels a .high)))
  let d7 := setCol d6 "distance_to_lower_boundary"
    (vol.map (fun v => Cell.num (v - quantile3 vol 0)))
  setCol d7 "distance_to_upper_boundary"
    (vol.map (fun v => Cell.num (quantile3 vol 3 - v)))

/-- The column names `create_features` writes. -/
def regimeAddedCols : List String :=
  ["vol_regime", "regime_group", "regime_duration", "transition_prob_Low",
   "transition_prob_Medium", "transition_prob_High",
   "distance_to_lower_boundary", "distance_to_upper_boundary"]

/-! ### Concrete tables used by witnesses and counterexamples -/

/-- A row with harmless OHLC/volume data and a chosen volatility value. -/
def cexRow (d : ℤ) (v : ℚ) : QRow :=
  ⟨d, some 1, some 1, some 1, some 1, some 1, some 0, some v⟩

/-- Sixteen rows of volatility `[0,...,0,16]`: mean 1, sample std 4, and
the final value has z-score 15/4 > 3. -/
def cexFrame0 : PipeFrame :=
  ⟨requiredCols,
    [cexRow 0 0, cexRow 1 0, cexRow 2 0, cexRow 3 0, cexRow 4 0, cexRow 5 0,
     cexRow 6 0, cexRow 7 0, cexRow 8 0, cexRow 9 0, cexRow 10 0, cexRow 11 0,
     cexRow 12 0, cexRow 13 0, cexRow 14 0, cexRow 15 16]⟩

/-- The first run's output: the extreme value is capped to
`mean + 3*std = 1 + 12 = 13`.  Its own statistics are mean 13/16 and
sample std 13/4, so the capped value's new z-score is again 15/4 > 3. -/
def cexFrame1 : PipeFrame :=
  ⟨requiredCols,
    [cexRow 0 0, cexRow 1 0, cexRow 2 0, cexRow 3 0, cexRow 4 0, cexRow 5 0,
     cexRow 6 0, cexRow 7 0, cexRow 8 0, cexRow 9 0, cexRow 10 0, cexRow 11 0,
     cexRow 12 0, cexRow 13 0, cexRow 14 0, cexRow 15 13]⟩

/-- A well-formed three-row table with volatility `[0, 1, 2]`
(sample std exactly 1, no extreme values). -/
def witFrame3 : PipeFrame :=
  ⟨requiredCols, [cexRow 0 0, cexRow 1 1, cexRow 2 2]⟩

/-- A one-row table whose `Open` is negative (fails price validation). -/
def badPriceFrame : PipeFrame :=
  ⟨requiredCols, [⟨0, some (-1), some 1, some 1, some 1, some 1, some 0, some 1⟩]⟩

/-- A one-row table with consistent prices but zero volume
(fails volume validation). -/
def zeroVolFrame : PipeFrame :=
  ⟨requiredCols, [⟨0, some 1, some 1, some 1, some 1, some 0, some 0, some 1⟩]⟩

/-- A table missing most required columns. -/
def missingFrame : PipeFrame := ⟨["Date", "Open"], []⟩

/-- A frame that already contains a `vol_regime` column before
`create_features` runs. -/
def dfCex : DataFrame :=
  [("realized_volatility", [Cell.num 1, Cell.num 2, Cell.num 3]),
   ("vol_regime", [Cell.cat .medium, Cell.cat .medium, Cell.cat .medium])]

theorem qVar_nonneg (xs : List ℚ) : 0 ≤ qVar xs := by
  cases xs with
  | nil => simp [qVar]
  | cons a t =>
      apply div_nonneg
      · apply List.sum_nonneg
        intro x hx
        obtain ⟨y, _, rfl⟩ := List.mem_map.1 hx
        positivity
      · simp only [List.length_cons]
        push_cast
        linarith

theorem filterMap_id_map_some (l : List ℚ) : (l.map some).filterMap id = l := by
  rw [List.filterMap_map]
  simpa using List.filterMap_some l

theorem optMean_map_some (l : List ℚ) : optMean (l.map some) = qMean l := by
  rw [optMean, filterMap_id_map_some]

theorem optVar_map_some (l : List ℚ) : optVar (l.map some) = qVar l := by
  rw [optVar, filterMap_id_map_some]

/-- C1: for every input table, the target label at a row is `1` exactly when
that row's `realized_volatility` strictly exceeds the mean plus the standard
deviation of the whole column (both from `Series.mean()` / `Series.std()`),
and for the volatility series `[0.1, 0.2, 0.1, 0.9]` only the row with value
`0.9` receives label `1`, the other three rows `0`. -/
theorem target_label_threshold :
    (∀ (xs : List ℚ) (v : ℚ),
        targetLabel xs v = 1 ↔ (qMean xs : ℝ) + Real.sqrt (qVar xs) < (v : ℝ))
      ∧ targetColumn [1/10, 2/10, 1/10, 9/10] = [0, 0, 0, 1] := by
  constructor
  · intro xs v
    unfold targetLabel
    split_ifs with h
    · obtain ⟨h1, h2⟩ := h
      have h1R : (0 : ℝ) < (v : ℝ) - (qMean xs : ℝ) := by exact_mod_cast h1
      have h2R : ((qVar xs : ℚ) : ℝ) < ((v : ℝ) - (qMean xs : ℝ)) ^ 2 := by
        push_cast
        exact_mod_cast h2
      have hsq := (Real.sqrt_lt' h1R).2 h2R
      constructor
      · intro _
        linarith
      · intro _
        rfl
    · constructor
      · intro h01
        exact absurd h01 (by norm_num)
      · intro hlt
        exfalso
        push_neg at h
        by_cases hv : 0 < v - qMean xs
        · have h2 := h hv
          have h2R : ((v : ℝ) - (qMean xs : ℝ)) ^ 2 ≤ (qVar xs : ℝ) := by
            push_cast
            exact_mod_cast h2
          have hvR : (0 : ℝ) ≤ (v : ℝ) - (qMean xs : ℝ) := by
            have : (0 : ℝ) < (v : ℝ) - (qMean xs : ℝ) := by exact_mod_cast hv
            linarith
          have hvarR : (0 : ℝ) ≤ (qVar xs : ℝ) := by exact_mod_cast qVar_nonneg xs
          have := (Real.le_sqrt hvR hvarR).2 h2R
          linarith
        · have hvR : (v : ℝ) - (qMean xs : ℝ) ≤ 0 := by
            push_neg at hv
            exact_mod_cast hv
          have := Real.sqrt_nonneg (qVar xs : ℝ)
          linarith
  · norm_num [targetColumn, targetLabel, qMean, qVar]

/-- C2: after `validate_volatility_data` runs on a non-constant column with
pre-cap mean `m = qMean l` and pre-cap standard deviation `s` (`0 < s`,
`s ^ 2 = qVar l`): every value with z-score `|v - m| / s > 3` is replaced by
`m + 3 * s * sign (v - m)`, every other value is unchanged, and every
post-cap value `v` satisfies `|(v - m) / s| ≤ 3` with respect to the pre-cap
statistics. -/
theorem volatility_capping (l : List ℚ) (s : ℚ) (hlen : 2 ≤ l.length)
    (hs : 0 < s) (hvar : s ^ 2 = qVar l) :
    (∀ i, i < l.length →
        (3 < |l.getD i 0 - qMean l| / s →
          (capColumn (l.map some) s).getD i none
            = some (qMean l + 3 * s * qSign (l.getD i 0 - qMean l)))
        ∧ (¬ 3 < |l.getD i 0 - qMean l| / s →
          (capColumn (l.map some) s).getD i none = some (l.getD i 0)))
    ∧ (∀ v : ℚ, some v ∈ capColumn (l.map some) s → |(v - qMean l) / s| ≤ 3) := by
  have hcol : capColumn (l.map some) s = l.map (fun v => capCell (qMean l) s (some v)) := by
    rw [capColumn, optMean_map_some, List.map_map]
    rfl
  constructor
  · intro i hi
    have hlenmap : i < (l.map (fun v => capCell (qMean l) s (some v))).length := by
      simpa using hi
    have hget : (capColumn (l.map some) s).getD i none
        = capCell (qMean l) s (some (l.getD i 0)) := by
      rw [hcol, List.getD_eq_getElem _ _ hlenmap, List.getElem_map,
        List.getD_eq_getElem _ _ hi]
    constructor
    · intro hex
      rw [hget, capCell, if_pos hex]
    · intro hex
      rw [hget, capCell, if_neg hex]
  · intro v hv
    rw [hcol] at hv
    obtain ⟨u, _, hu⟩ := List.mem_map.1 hv
    rw [capCell] at hu
    by_cases hex : 3 < |u - qMean l| / s
    · rw [if_pos hex] at hu
      have hne : u - qMean l ≠ 0 := by
        intro h0
        rw [h0] at hex
        simp at hex
        linarith
      have hv3 : v - qMean l = 3 * s * qSign (u - qMean l) := by
        have hvu := Option.some.inj hu
        rw [← hvu]
        ring
      rcases lt_trichotomy (u - qMean l) 0 with hneg | hzero | hpos
      · rw [qSign, if_neg (by linarith), if_pos hneg] at hv3
        rw [hv3]
        rw [abs_div, abs_of_pos hs]
        rw [div_le_iff hs]
        rw [abs_of_nonpos (by linarith)]
        linarith
      · exact absurd hzero hne
      · rw [qSign, if_pos hpos] at hv3
        rw [hv3]
        rw [abs_div, abs_of_pos hs]
        rw [div_le_iff hs]
        rw [abs_of_nonneg (by linarith)]
        linarith
    · rw [if_neg hex] at hu
      have huv : u = v := Option.some.inj hu
      push_neg at hex
      rw [← huv, abs_div, abs_of_pos hs]
      exact (div_le_iff hs).2 (by
        have := (div_le_iff hs).1 hex
        linarith)

/-- Witness for C2 at the concrete column `[0, 1, 2]`, whose sample standard
deviation is exactly `1`. -/
theorem volatility_capping_witness :
    (2 ≤ ([0, 1, 2] : List ℚ).length) ∧ ((0 : ℚ) < 1)
      ∧ ((1 : ℚ) ^ 2 = qVar [0, 1, 2])
      ∧ (∀ v : ℚ, some v ∈ capColumn (([0, 1, 2] : List ℚ).map some) 1 →
          |(v - qMean [0, 1, 2]) / 1| ≤ 3) :=
  ⟨by norm_num, by norm_num, by norm_num [qVar, qMean],
    (volatility_capping [0, 1, 2] 1 (by norm_num) (by norm_num)
      (by norm_num [qVar, qMean])).2⟩

/-- C6: whenever at least one required column is absent, `run_pipeline`
records the missing-columns diagnostic, returns failure, and writes no
output. -/
theorem missing_columns_abort (f : PipeFrame) (s : ℚ)
    (h : hasRequiredCols f = false) :
    (runPipeline f s).success = false ∧ (runPipeline f s).output = none
      ∧ (runPipeline f s).saved = false
      ∧ Diag.missingColumns ∈ (runPipeline f s).errors := by
  unfold runPipeline
  rw [h]
  simp

/-- Witness for C6 at a frame having only `Date` and `Open` columns. -/
theorem missing_columns_abort_witness :
    hasRequiredCols missingFrame = false
      ∧ (runPipeline missingFrame 1).success = false
      ∧ (runPipeline missingFrame 1).output = none
      ∧ (runPipeline missingFrame 1).saved = false
      ∧ Diag.missingColumns ∈ (runPipeline missingFrame 1).errors :=
  ⟨by decide,
    (missing_columns_abort missingFrame 1 (by decide)).1,
    (missing_columns_abort missingFrame 1 (by decide)).2.1,
    (missing_columns_abort missingFrame 1 (by decide)).2.2.1,
    (missing_columns_abort missingFrame 1 (by decide)).2.2.2⟩

/-- C3: `validate_volatility_data` returns success unconditionally, so
the pipeline never aborts at that step; by contrast a failing
`validate_price_data` or `validate_volume_data` makes `run_pipeline`
return failure before enhancing, normalizing, or persisting anything. -/
theorem validator_gating_asymmetry :
    (∀ (rows : List QRow) (s : ℚ), (validateVolatilityStep rows s).2.2 = true)
      ∧ (∀ (f : PipeFrame) (s : ℚ), hasRequiredCols f = true →
          priceErrors (cleanFrame f).rows ≠ [] →
          (runPipeline f s).success = false ∧ (runPipeline f s).output = none
            ∧ (runPipeline f s).enhanced = false
            ∧ (runPipeline f s).normalized = false
            ∧ (runPipeline f s).saved = false)
      ∧ (∀ (f : PipeFrame) (s : ℚ), hasRequiredCols f = true →
          priceErrors (cleanFrame f).rows = [] →
          volumeErrors (cleanFrame f).rows ≠ [] →
          (runPipeline f s).success = false ∧ (runPipeline f s).output = none
            ∧ (runPipeline f s).enhanced = false
            ∧ (runPipeline f s).normalized = false
            ∧ (runPipeline f s).saved = false) := by
  refine ⟨fun rows s => rfl, ?_, ?_⟩
  · intro f s hreq hp
    unfold runPipeline
    rw [hreq]
    simp [hp]
  · intro f s hreq hp hv
    unfold runPipeline
    rw [hreq]
    simp [hp, hv]

/-- Witness for C3: a negative `Open` aborts the run, zero volume aborts
the run, and the volatility step reports success on both tables. -/
theorem validator_gating_asymmetry_witness :
    (validateVolatilityStep badPriceFrame.rows 1).2.2 = true
      ∧ (runPipeline badPriceFrame 1).success = false
      ∧ (runPipeline badPriceFrame 1).saved = false
      ∧ (runPipeline zeroVolFrame 1).success = false
      ∧ (runPipeline zeroVolFrame 1).saved = false :=
  ⟨validator_gating_asymmetry.1 badPriceFrame.rows 1,
    (validator_gating_asymmetry.2.1 badPriceFrame 1 (by decide) (by decide)).1,
    (validator_gating_asymmetry.2.1 badPriceFrame 1 (by decide) (by decide)).2.2.2.2,
    (validator_gating_asymmetry.2.2 zeroVolFrame 1 (by decide) (by decide) (by decide)).1,
    (validator_gating_asymmetry.2.2 zeroVolFrame 1 (by decide) (by decide)
      (by decide)).2.2.2.2⟩

theorem regimeGroup_succ (l : List Regime) (i : ℕ) :
    regimeGroup l (i + 1)
      = regimeGroup l i + (if changeFlag l (i + 1) then 1 else 0) := by
  unfold regimeGroup
  rw [List.range_succ, List.filter_append, List.length_append]
  congr 1
  by_cases h : changeFlag l (i + 1) <;> simp [h]

theorem regimeGroup_mono (l : List Regime) {i j : ℕ} (h : i ≤ j) :
    regimeGroup l i ≤ regimeGroup l j := by
  induction j with
  | zero =>
      have : i = 0 := Nat.le_zero.1 h
      rw [this]
  | succ n ih =>
      rcases Nat.lt_or_ge i (n + 1) with hlt | hge
      · have h1 := ih (Nat.lt_succ_iff.1 hlt)
        have h2 := regimeGroup_succ l n
        by_cases hf : changeFlag l (n + 1) <;> simp [hf] at h2 <;> omega
      · have : i = n + 1 := le_antisymm h hge
        rw [this]

theorem changeFlag_succ (l : List Regime) (i : ℕ) :
    changeFlag l (i + 1) = !(l.getD (i + 1) default == l.getD i default) := by
  simp [changeFlag]

theorem regimeDuration_zero (l : List Regime) : regimeDuration l 0 = 0 := rfl

theorem regimeDuration_succ_of_change (l : List Regime) (i : ℕ)
    (h : changeFlag l (i + 1) = true) : regimeDuration l (i + 1) = 0 := by
  unfold regimeDuration
  rw [List.length_eq_zero, List.filter_eq_nil_iff]
  intro j hj
  rw [List.mem_range] at hj
  have h1 : regimeGroup l j ≤ regimeGroup l i := regimeGroup_mono l (by omega)
  have h2 : regimeGroup l i < regimeGroup l (i + 1) := by
    rw [regimeGroup_succ, h]
    simp
  simp only [beq_iff_eq]
  omega

theorem regimeDuration_succ_of_same (l : List Regime) (i : ℕ)
    (h : changeFlag l (i + 1) = false) :
    regimeDuration l (i + 1) = regimeDuration l i + 1 := by
  have hg : regimeGroup l (i + 1) = regimeGroup l i := by
    rw [regimeGroup_succ, h]
    simp
  unfold regimeDuration
  rw [hg, List.range_succ, List.filter_append, List.length_append]
  simp

/-- C4: the regime duration is 0 at the first row; at any later row it is
0 exactly when the row's label differs from the previous row's label, and
it increases by exactly 1 at each row whose label repeats the previous
one. -/
theorem regime_duration_resets (l : List Regime) :
    regimeDuration l 0 = 0
      ∧ (∀ i, i + 1 < l.length →
          (regimeDuration l (i + 1) = 0
            ↔ ¬ l.getD (i + 1) default = l.getD i default))
      ∧ (∀ i, i + 1 < l.length → l.getD (i + 1) default = l.getD i default →
          regimeDuration l (i + 1) = regimeDuration l i + 1) := by
  refine ⟨regimeDuration_zero l, ?_, ?_⟩
  · intro i _
    constructor
    · intro hdur hsame
      have hf : changeFlag l (i + 1) = false := by
        rw [changeFlag_succ, hsame]
        simp
      rw [regimeDuration_succ_of_same l i hf] at hdur
      omega
    · intro hne
      apply regimeDuration_succ_of_change
      rw [changeFlag_succ]
      simp only [Bool.not_eq_true', beq_eq_false_iff_ne, ne_eq]
      exact hne
  · intro i _ hsame
    apply regimeDuration_succ_of_same
    rw [changeFlag_succ, hsame]
    simp

/-- Witness for C4 on the label column `[Low, Low, High, High, High, Low]`,
whose durations are `[0, 1, 0, 1, 2, 0]`. -/
theorem regime_duration_resets_witness :
    regimeDuration [Regime.low, .low, .high, .high, .high, .low] 0 = 0
      ∧ (regimeDuration [Regime.low, .low, .high, .high, .high, .low] 2 = 0
          ↔ ¬ ([Regime.low, .low, .high, .high, .high, .low].getD 2 default
              = [Regime.low, .low, .high, .high, .high, .low].getD 1 default))
      ∧ regimeDuration [Regime.low, .low, .high, .high, .high, .low] 4
          = regimeDuration [Regime.low, .low, .high, .high, .high, .low] 3 + 1 :=
  ⟨(regime_duration_resets [Regime.low, .low, .high, .high, .high, .low]).1,
    (regime_duration_resets [Regime.low, .low, .high, .high, .high, .low]).2.1 1
      (by decide),
    (regime_duration_resets [Regime.low, .low, .high, .high, .high, .low]).2.2 3
      (by decide) (by decide)⟩

/-- C5: every row of the transition matrix belonging to a regime that
occurs at least once as a previous label sums to exactly 1 in exact
rational arithmetic. -/
theorem transition_row_sums (l : List Regime) (a : Regime)
    (h : ∃ i, i + 1 < l.length ∧ l.getD i default = a) :
    transProb l a .low + transProb l a .medium + transProb l a .high = 1 := by
  have hpos : 0 < transRowSum l a := by
    obtain ⟨i, hi, ha⟩ := h
    have hmem : i ∈ (List.range (l.length - 1)).filter
        (fun j => l.getD j default == a
          && l.getD (j + 1) default == l.getD (i + 1) default) := by
      rw [List.mem_filter, List.mem_range]
      refine ⟨by omega, ?_⟩
      rw [ha]
      simp only [beq_self_eq_true, Bool.and_self]
    have hcount : 0 < transCount l a (l.getD (i + 1) default) := by
      rw [transCount]
      exact List.length_pos.2 (fun hnil => by rw [hnil] at hmem; simp at hmem)
    unfold transRowSum
    rcases hb : l.getD (i + 1) default <;> rw [hb] at hcount <;> omega
  unfold transProb
  rw [div_add_div_same, div_add_div_same]
  have hnum : (transCount l a .low : ℚ) + (transCount l a .medium : ℚ)
      + (transCount l a .high : ℚ) = (transRowSum l a : ℚ) := by
    unfold transRowSum
    push_cast
    ring
  rw [hnum]
  apply div_self
  exact_mod_cast Nat.pos_iff_ne_zero.1 hpos

/-- Witness for C5 on the label column `[Low, High, Low]` at the row of
label `Low`, which occurs as a previous label. -/
theorem transition_row_sums_witness :
    transProb [Regime.low, .high, .low] .low .low
        + transProb [Regime.low, .high, .low] .low .medium
        + transProb [Regime.low, .high, .low] .low .high = 1 :=
  transition_row_sums [Regime.low, .high, .low] .low ⟨0, by decide, rfl⟩

theorem ffillGo_length (last : Option ℚ) (l : List (Option ℚ)) :
    (ffillGo last l).length = l.length := by
  induction l generalizing last with
  | nil => rfl
  | cons c t ih => cases c <;> simp [ffillGo, ih]

theorem bfill_length (l : List (Option ℚ)) : (bfill l).length = l.length := by
  induction l with
  | nil => rfl
  | cons c t ih => cases c <;> simp [bfill, ih]

theorem fbf_length (l : List (Option ℚ)) : (fbf l).length = l.length := by
  rw [fbf, bfill_length, ffill, ffillGo_length]

theorem ffillGo_all_some (v : ℚ) (l : List (Option ℚ)) :
    ∀ x ∈ ffillGo (some v) l, x.isSome = true := by
  induction l generalizing v with
  | nil => simp [ffillGo]
  | cons c t ih =>
      cases c with
      | none =>
          intro x hx
          rcases List.mem_cons.1 hx with rfl | hx
          · rfl
          · exact ih v x hx
      | some w =>
          intro x hx
          rcases List.mem_cons.1 hx with rfl | hx
          · rfl
          · exact ih w x hx

theorem ffill_structure (l : List (Option ℚ)) :
    ∃ k rest, ffillGo none l = List.replicate k none ++ rest
      ∧ ∀ x ∈ rest, x.isSome = true := by
  induction l with
  | nil => exact ⟨0, [], rfl, by simp⟩
  | cons c t ih =>
      cases c with
      | none =>
          obtain ⟨k, rest, heq, hall⟩ := ih
          exact ⟨k + 1, rest, by rw [List.replicate_succ, List.cons_append, ← heq]; rfl,
            hall⟩
      | some v =>
          refine ⟨0, some v :: ffillGo (some v) t, rfl, ?_⟩
          intro x hx
          rcases List.mem_cons.1 hx with rfl | hx
          · rfl
          · exact ffillGo_all_some v t x hx

theorem ffillGo_some_exists (l : List (Option ℚ))
    (h : ∃ x ∈ l, x.isSome = true) :
    ∃ x ∈ ffillGo none l, x.isSome = true := by
  induction l with
  | nil => simp at h
  | cons c t ih =>
      cases c with
      | some v => exact ⟨some v, List.mem_cons_self _ _, rfl⟩
      | none =>
          obtain ⟨x, hx, hs⟩ := h
          rcases List.mem_cons.1 hx with rfl | hx
          · simp at hs
          · obtain ⟨y, hy, hys⟩ := ih ⟨x, hx, hs⟩
            exact ⟨y, List.mem_cons_of_mem _ hy, hys⟩

theorem bfill_all_some (l : List (Option ℚ)) (h : ∀ x ∈ l, x.isSome = true) :
    ∀ x ∈ bfill l, x.isSome = true := by
  induction l with
  | nil => simp [bfill]
  | cons c t ih =>
      cases c with
      | some v =>
          intro x hx
          rcases List.mem_cons.1 hx with rfl | hx
          · rfl
          · exact ih (fun y hy => h y (List.mem_cons_of_mem _ hy)) x hx
      | none => exact absurd (h none (List.mem_cons_self _ _)) (by simp)

theorem filterMap_id_replicate_none (n : ℕ) :
    (List.replicate n (none : Option ℚ)).filterMap id = [] := by
  induction n with
  | zero => rfl
  | succ m ih =>
      rw [List.replicate_succ, List.filterMap_cons]
      simpa using ih

theorem bfill_replicate_append (k : ℕ) (rest : List (Option ℚ))
    (hne : rest ≠ []) (hall : ∀ x ∈ rest, x.isSome = true) :
    ∀ x ∈ bfill (List.replicate k none ++ rest), x.isSome = true := by
  induction k with
  | zero => simpa using bfill_all_some rest hall
  | succ n ih =>
      rw [List.replicate_succ, List.cons_append]
      show ∀ x ∈ firstSome (List.replicate n none ++ rest)
          :: bfill (List.replicate n none ++ rest), x.isSome = true
      intro x hx
      rcases List.mem_cons.1 hx with rfl | hx
      · rw [firstSome, List.filterMap_append, filterMap_id_replicate_none,
          List.nil_append]
        cases hr : rest with
        | nil => exact absurd hr hne
        | cons y ys =>
            have hy := hall y (by rw [hr]; exact List.mem_cons_self _ _)
            obtain ⟨v, rfl⟩ := Option.isSome_iff_exists.1 hy
            simp
      · exact ih x hx

theorem fbf_all_some (l : List (Option ℚ)) (h : ∃ x ∈ l, x.isSome = true) :
    ∀ x ∈ fbf l, x.isSome = true := by
  obtain ⟨k, rest, heq, hall⟩ := ffill_structure l
  have hne : rest ≠ [] := by
    intro hr
    obtain ⟨x, hx, hs⟩ := ffillGo_some_exists l h
    rw [heq, hr, List.append_nil] at hx
    rw [List.eq_of_mem_replicate hx] at hs
    simp at hs
  rw [fbf, ffill, heq]
  exact bfill_replicate_append k rest hne hall

theorem getCell_setCell_same (c : NumCol) (v : Option ℚ) (r : QRow) :
    getCell c (setCell c v r) = v := by
  cases c <;> rfl

theorem getCell_setCell_ne (c c' : NumCol) (hne : c ≠ c') (v : Option ℚ)
    (r : QRow) : getCell c (setCell c' v r) = getCell c r := by
  cases c <;> cases c' <;> first | rfl | exact absurd rfl hne

theorem readCol_writeCol_same (c : NumCol) (vals : List (Option ℚ))
    (rows : List QRow) (hlen : vals.length = rows.length) :
    readCol c (writeCol c vals rows) = vals := by
  induction rows generalizing vals with
  | nil => cases vals with
      | nil => rfl
      | cons v vs => exact absurd hlen (by simp)
  | cons r t ih =>
      cases vals with
      | nil => exact absurd hlen (by simp)
      | cons v vs =>
          show getCell c (setCell c v r) :: readCol c (writeCol c vs t) = v :: vs
          rw [getCell_setCell_same, ih vs (by simpa using hlen)]

theorem readCol_writeCol_ne (c c' : NumCol) (hne : c ≠ c')
    (vals : List (Option ℚ)) (rows : List QRow)
    (hlen : vals.length = rows.length) :
    readCol c (writeCol c' vals rows) = readCol c rows := by
  induction rows generalizing vals with
  | nil => cases vals <;> rfl
  | cons r t ih =>
      cases vals with
      | nil => exact absurd hlen (by simp)
      | cons v vs =>
          show getCell c (setCell c' v r) :: readCol c (writeCol c' vs t)
            = getCell c r :: readCol c t
          rw [getCell_setCell_ne c c' hne, ih vs (by simpa using hlen)]

theorem readCol_fillStep (c c' : NumCol) (rows : List QRow) :
    readCol c (writeCol c' (fbf (readCol c' rows)) rows)
      = if c = c' then fbf (readCol c rows) else readCol c rows := by
  by_cases h : c = c'
  · subst h
    rw [if_pos rfl]
    apply readCol_writeCol_same
    rw [fbf_length]
    simp [readCol]
  · rw [if_neg h]
    apply readCol_writeCol_ne _ _ h
    rw [fbf_length]
    simp [readCol]

theorem readCol_foldl_fill (cs : List NumCol) (hnd : cs.Nodup)
    (rows : List QRow) (c : NumCol) :
    readCol c (cs.foldl (fun rs c' => writeCol c' (fbf (readCol c' rs)) rs) rows)
      = if c ∈ cs then fbf (readCol c rows) else readCol c rows := by
  induction cs generalizing rows with
  | nil => simp
  | cons c0 cs ih =>
      rw [List.foldl_cons]
      have hc0 := (List.nodup_cons.1 hnd).1
      rw [ih (List.nodup_cons.1 hnd).2]
      have hlen : (fbf (readCol c0 rows)).length = rows.length := by
        rw [fbf_length]
        simp [readCol]
      by_cases h2 : c ∈ cs
      · rw [if_pos h2, if_pos (List.mem_cons_of_mem _ h2)]
        have hc : c ≠ c0 := fun h => hc0 (h ▸ h2)
        rw [readCol_writeCol_ne _ _ hc _ _ hlen]
      · rw [if_neg h2]
        by_cases hc : c = c0
        · subst hc
          rw [readCol_writeCol_same _ _ _ hlen, if_pos (List.mem_cons_self _ _)]
        · rw [readCol_writeCol_ne _ _ hc _ _ hlen, if_neg (by simp [hc, h2])]

theorem readCol_fillTable (c : NumCol) (rows : List QRow) :
    readCol c (fillTable rows) = fbf (readCol c rows) := by
  rw [fillTable, readCol_foldl_fill allNumCols (by decide) rows c,
    if_pos (by cases c <;> decide)]

theorem mem_dedupGo (seen : List ℤ) (rows : List QRow) :
    ∀ r ∈ dedupGo seen rows, r ∈ rows := by
  induction rows generalizing seen with
  | nil => simp [dedupGo]
  | cons x t ih =>
      intro r hr
      rw [dedupGo] at hr
      by_cases hx : x.date ∈ seen
      · rw [if_pos hx] at hr
        exact List.mem_cons_of_mem _ (ih seen r hr)
      · rw [if_neg hx] at hr
        rcases List.mem_cons.1 hr with rfl | hr
        · exact List.mem_cons_self _ _
        · exact List.mem_cons_of_mem _ (ih _ r hr)

theorem capCell_isSome (m s : ℚ) (c : Option ℚ) (h : c.isSome = true) :
    (capCell m s c).isSome = true := by
  cases c with
  | none => simp at h
  | some v =>
      rw [capCell]
      split <;> rfl

/-- C8: when every required column of the input has at least one
non-missing value, every required cell of the persisted output is
non-missing: the forward/backward fill establishes this and the later
stages (validators with capping, enhancement, normalization, persist)
preserve it on the required columns. -/
theorem output_no_missing (f : PipeFrame) (s : ℚ)
    (hcols : ∀ c : NumCol, ∃ x ∈ readCol c f.rows, x.isSome = true) :
    ∀ t, (runPipeline f s).output = some t →
      ∀ r ∈ t.rows, ∀ c : NumCol, (getCell c r).isSome = true := by
  intro t hout r hr c
  have hperm : ∀ c : NumCol,
      (readCol c (sortRows f.rows)).Perm (readCol c f.rows) :=
    fun c => (List.perm_insertionSort _ f.rows).map (getCell c)
  have h0 : ∀ c : NumCol, ∃ x ∈ readCol c (sortRows f.rows), x.isSome = true := by
    intro c
    obtain ⟨x, hx, hs⟩ := hcols c
    exact ⟨x, (hperm c).mem_iff.2 hx, hs⟩
  have h1 : ∀ c : NumCol, ∀ x ∈ readCol c (fillTable (sortRows f.rows)),
      x.isSome = true := by
    intro c
    rw [readCol_fillTable]
    exact fbf_all_some _ (h0 c)
  have h2 : ∀ (c : NumCol) (q : QRow), q ∈ (cleanFrame f).rows →
      (getCell c q).isSome = true := by
    intro c q hq
    have hq2 : q ∈ fillTable (sortRows f.rows) := mem_dedupGo _ _ q hq
    exact h1 c _ (List.mem_map_of_mem _ hq2)
  unfold runPipeline at hout
  split_ifs at hout with hA hB hC hD
  · have ht : t.rows
        = writeCol .volC (capColumn (readCol .volC (cleanFrame f).rows) s)
            (cleanFrame f).rows := by
      have hinj := Option.some.inj hout
      rw [← hinj]
      rfl
    have hlen : (capColumn (readCol .volC (cleanFrame f).rows) s).length
        = (cleanFrame f).rows.length := by
      simp [capColumn, readCol]
    have hx : getCell c r ∈ readCol c t.rows := List.mem_map_of_mem _ hr
    by_cases hc : c = NumCol.volC
    · subst hc
      rw [ht, readCol_writeCol_same _ _ _ hlen] at hx
      obtain ⟨y, hy, hcap⟩ := List.mem_map.1 hx
      obtain ⟨q, hq, hgq⟩ := List.mem_map.1 hy
      rw [← hcap]
      apply capCell_isSome
      rw [← hgq]
      exact h2 _ q hq
    · rw [ht, readCol_writeCol_ne _ _ hc _ _ hlen] at hx
      obtain ⟨q, hq, hgq⟩ := List.mem_map.1 hx
      rw [← hgq]
      exact h2 _ q hq
  all_goals simp at hout

theorem filterMap_id_cons_some (v : ℚ) (t : List (Option ℚ)) :
    List.filterMap id (some v :: t) = v :: List.filterMap id t := by
  simp

theorem filterMap_id_nil : List.filterMap id ([] : List (Option ℚ)) = [] := rfl

theorem runPipeline_success (f : PipeFrame) (s : ℚ)
    (hreq : hasRequiredCols f = true)
    (hp : priceErrors (cleanFrame f).rows = [])
    (hv : volumeErrors (cleanFrame f).rows = []) :
    runPipeline f s =
      { success := true,
        errors := volatilityErrors (cleanFrame f).rows,
        output := some
          { cols := (cleanFrame f).cols,
            rows := writeCol .volC
              (capColumn (readCol .volC (cleanFrame f).rows) s)
              (cleanFrame f).rows },
        enhanced := true, normalized := true, saved := true } := by
  unfold runPipeline
  rw [hreq]
  simp [hp, hv, validateVolatilityStep]

theorem setCell_getCell_self (c : NumCol) (r : QRow) :
    setCell c (getCell c r) r = r := by
  cases c <;> rfl

theorem writeCol_readCol_self (c : NumCol) (rows : List QRow) :
    writeCol c (readCol c rows) rows = rows := by
  induction rows with
  | nil => rfl
  | cons r t ih =>
      show setCell c (getCell c r) r :: writeCol c (readCol c t) t = r :: t
      rw [ih, setCell_getCell_self]

theorem ffillGo_all_some_id (last : Option ℚ) (l : List (Option ℚ))
    (h : ∀ x ∈ l, x.isSome = true) : ffillGo last l = l := by
  induction l generalizing last with
  | nil => rfl
  | cons c t ih =>
      cases c with
      | none => exact absurd (h none (List.mem_cons_self _ _)) (by simp)
      | some v =>
          show some v :: ffillGo (some v) t = some v :: t
          rw [ih (some v) (fun x hx => h x (List.mem_cons_of_mem _ hx))]

theorem bfill_all_some_id (l : List (Option ℚ))
    (h : ∀ x ∈ l, x.isSome = true) : bfill l = l := by
  induction l with
  | nil => rfl
  | cons c t ih =>
      cases c with
      | none => exact absurd (h none (List.mem_cons_self _ _)) (by simp)
      | some v =>
          show some v :: bfill t = some v :: t
          rw [ih (fun x hx => h x (List.mem_cons_of_mem _ hx))]

theorem fbf_all_some_id (l : List (Option ℚ))
    (h : ∀ x ∈ l, x.isSome = true) : fbf l = l := by
  rw [fbf, ffill, ffillGo_all_some_id _ _ h, bfill_all_some_id _ h]

theorem fillTable_id (rows : List QRow)
    (h : ∀ r ∈ rows, ∀ c : NumCol, (getCell c r).isSome = true) :
    fillTable rows = rows := by
  have hstep : ∀ c : NumCol, writeCol c (fbf (readCol c rows)) rows = rows := by
    intro c
    have hall : ∀ x ∈ readCol c rows, x.isSome = true := by
      intro x hx
      obtain ⟨q, hq, rfl⟩ := List.mem_map.1 hx
      exact h q hq c
    rw [fbf_all_some_id _ hall, writeCol_readCol_self]
  simp only [fillTable, allNumCols, List.foldl_cons, List.foldl_nil]
  rw [hstep .openC, hstep .highC, hstep .lowC, hstep .closeC, hstep .volumeC,
    hstep .logRetC, hstep .volC]

theorem dedupGo_id (seen : List ℤ) (rows : List QRow)
    (h1 : ∀ r ∈ rows, r.date ∉ seen) (h2 : (rows.map QRow.date).Nodup) :
    dedupGo seen rows = rows := by
  induction rows generalizing seen with
  | nil => rfl
  | cons r t ih =>
      simp only [List.map_cons, List.nodup_cons] at h2
      rw [dedupGo, if_neg (h1 r (List.mem_cons_self _ _)), ih]
      · intro x hx hmem
        rcases List.mem_cons.1 hmem with heq | hmem2
        · exact h2.1 (heq ▸ List.mem_map_of_mem QRow.date hx)
        · exact h1 x (List.mem_cons_of_mem _ hx) hmem2
      · exact h2.2

theorem sortRows_sorted_id (rows : List QRow)
    (h : List.Sorted (fun a b : QRow => a.date ≤ b.date) rows) :
    sortRows rows = rows :=
  List.Sorted.insertionSort_eq h

theorem cleanFrame_id (f : PipeFrame)
    (hdrop : ∀ c ∈ f.cols, (!(c == "Dividends" || c == "Stock Splits")) = true)
    (hsort : List.Sorted (fun a b : QRow => a.date ≤ b.date) f.rows)
    (hnd : (f.rows.map QRow.date).Nodup)
    (hsome : ∀ r ∈ f.rows, ∀ c : NumCol, (getCell c r).isSome = true) :
    cleanFrame f = f := by
  have hcols : f.cols.filter (fun c => !(c == "Dividends" || c == "Stock Splits"))
      = f.cols := List.filter_eq_self.2 hdrop
  have hrows : dedupByDate (fillTable (sortRows f.rows)) = f.rows := by
    rw [sortRows_sorted_id _ hsort, fillTable_id _ hsome, dedupByDate,
      dedupGo_id _ _ (by simp) hnd]
  rw [cleanFrame, hcols, hrows]

theorem capColumn_id (xs : List (Option ℚ)) (s : ℚ)
    (h : ∀ v : ℚ, some v ∈ xs → ¬ 3 < |v - optMean xs| / s) :
    capColumn xs s = xs := by
  rw [capColumn]
  conv_rhs => rw [← List.map_id xs]
  apply List.map_congr_left
  intro x hx
  cases x with
  | none => rfl
  | some v =>
      show capCell (optMean xs) s (some v) = some v
      rw [capCell, if_neg (h v hx)]

/-- C7 amended: re-running the quality gate on a table that is already
sorted with distinct dates, fully non-missing, free of the two cosmetic
columns, and passing the price/volume validators is a fixed point,
PROVIDED no volatility value is extreme (z-score above 3) with respect to
the table's own statistics; the counterexample
`quality_gate_not_idempotent` shows the proviso is necessary because the
capping step can re-fire on its own output. -/
theorem quality_gate_fixed_point (f : PipeFrame) (s : ℚ)
    (hreq : hasRequiredCols f = true)
    (hdrop : ∀ c ∈ f.cols, (!(c == "Dividends" || c == "Stock Splits")) = true)
    (hsort : List.Sorted (fun a b : QRow => a.date ≤ b.date) f.rows)
    (hnd : (f.rows.map QRow.date).Nodup)
    (hsome : ∀ r ∈ f.rows, ∀ c : NumCol, (getCell c r).isSome = true)
    (hp : priceErrors f.rows = []) (hv : volumeErrors f.rows = [])
    (hs : 0 ≤ s) (hvar : s ^ 2 = optVar (readCol .volC f.rows))
    (hnoext : ∀ v : ℚ, some v ∈ readCol .volC f.rows →
        ¬ 3 < |v - optMean (readCol .volC f.rows)| / s) :
    runPipeline f s =
      { success := true, errors := volatilityErrors f.rows,
        output := some f, enhanced := true, normalized := true,
        saved := true } := by
  have hclean : cleanFrame f = f := cleanFrame_id f hdrop hsort hnd hsome
  rw [runPipeline_success f s hreq (by rw [hclean]; exact hp)
    (by rw [hclean]; exact hv), hclean, capColumn_id _ _ hnoext,
    writeCol_readCol_self]

/-- Witness for the amended C7 on the three-row table with volatility
`[0, 1, 2]` (its own sample standard deviation is 1 and no value is
extreme), obtained by applying `quality_gate_fixed_point`. -/
theorem quality_gate_fixed_point_witness :
    runPipeline witFrame3 1 =
      { success := true, errors := volatilityErrors witFrame3.rows,
        output := some witFrame3, enhanced := true, normalized := true,
        saved := true } := by
  apply quality_gate_fixed_point witFrame3 1 (by decide) (by decide) (by decide)
    (by decide) (by decide) (by decide) (by decide) (by norm_num)
  · have hcol : readCol .volC witFrame3.rows = [some 0, some 1, some 2] := rfl
    rw [hcol]
    norm_num [optVar, qVar, qMean, filterMap_id_cons_some, filterMap_id_nil]
  · intro v hv2
    have hcol : readCol .volC witFrame3.rows = [some 0, some 1, some 2] := rfl
    rw [hcol] at hv2 ⊢
    have hm : optMean [some (0 : ℚ), some 1, some 2] = 1 := by
      norm_num [optMean, qMean, filterMap_id_cons_some, filterMap_id_nil]
    rw [hm]
    simp only [List.mem_cons, List.not_mem_nil, or_false, Option.some.injEq] at hv2
    rcases hv2 with rfl | rfl | rfl <;> norm_num [abs_of_nonneg]

theorem cex_clean0 : cleanFrame cexFrame0 = cexFrame0 :=
  cleanFrame_id _ (by decide) (by decide) (by decide) (by decide)

theorem cex_clean1 : cleanFrame cexFrame1 = cexFrame1 :=
  cleanFrame_id _ (by decide) (by decide) (by decide) (by decide)

theorem cex_col0 : readCol .volC cexFrame0.rows
    = [some 0, some 0, some 0, some 0, some 0, some 0, some 0, some 0,
       some 0, some 0, some 0, some 0, some 0, some 0, some 0, some 16] := rfl

theorem cex_col1 : readCol .volC cexFrame1.rows
    = [some 0, some 0, some 0, some 0, some 0, some 0, some 0, some 0,
       some 0, some 0, some 0, some 0, some 0, some 0, some 0, some 13] := rfl

theorem cex_cap0 : capColumn (readCol .volC cexFrame0.rows) 4
    = readCol .volC cexFrame1.rows := by
  rw [cex_col0, cex_col1]
  have hm : optMean [some (0 : ℚ), some 0, some 0, some 0, some 0, some 0,
      some 0, some 0, some 0, some 0, some 0, some 0, some 0, some 0, some 0,
      some 16] = 1 := by
    norm_num [optMean, qMean, filterMap_id_cons_some, filterMap_id_nil]
  rw [capColumn, hm]
  norm_num [capCell, qSign, abs_of_nonneg]

theorem cex_write0 :
    writeCol .volC (readCol .volC cexFrame1.rows) cexFrame0.rows
      = cexFrame1.rows := by decide

theorem cex_run0 : runPipeline cexFrame0 4 =
    { success := true, errors := [], output := some cexFrame1,
      enhanced := true, normalized := true, saved := true } := by
  rw [runPipeline_success cexFrame0 4 (by decide) (by rw [cex_clean0]; decide)
    (by rw [cex_clean0]; decide), cex_clean0, cex_cap0, cex_write0]
  decide

/-- Twelve zeros and the doubly-capped value `169/16`. -/
def cexFrame2 : PipeFrame :=
  ⟨requiredCols,
    [cexRow 0 0, cexRow 1 0, cexRow 2 0, cexRow 3 0, cexRow 4 0, cexRow 5 0,
     cexRow 6 0, cexRow 7 0, cexRow 8 0, cexRow 9 0, cexRow 10 0, cexRow 11 0,
     cexRow 12 0, cexRow 13 0, cexRow 14 0, cexRow 15 (169 / 16)]⟩

theorem cex_cap1 : capColumn (readCol .volC cexFrame1.rows) (13 / 4)
    = readCol .volC cexFrame2.rows := by
  rw [cex_col1]
  have hm : optMean [some (0 : ℚ), some 0, some 0, some 0, some 0, some 0,
      some 0, some 0, some 0, some 0, some 0, some 0, some 0, some 0, some 0,
      some 13] = 13 / 16 := by
    norm_num [optMean, qMean, filterMap_id_cons_some, filterMap_id_nil]
  rw [capColumn, hm]
  show _ = [some (0 : ℚ), some 0, some 0, some 0, some 0, some 0, some 0,
    some 0, some 0, some 0, some 0, some 0, some 0, some 0, some 0,
    some (169 / 16)]
  norm_num [capCell, qSign, abs_of_nonneg]

theorem cex_write1 :
    writeCol .volC (readCol .volC cexFrame2.rows) cexFrame1.rows
      = cexFrame2.rows := by
  simp [writeCol, readCol, setCell, getCell, cexFrame1, cexFrame2, cexRow]

theorem cex_run1 : runPipeline cexFrame1 (13 / 4) =
    { success := true, errors := [], output := some cexFrame2,
      enhanced := true, normalized := true, saved := true } := by
  rw [runPipeline_success cexFrame1 (13 / 4) (by decide)
    (by rw [cex_clean1]; decide) (by rw [cex_clean1]; decide),
    cex_clean1, cex_cap1, cex_write1]
  rw [show volatilityErrors cexFrame1.rows = [] from by decide]
  rfl

/-- C7 counterexample: running the quality gate on the sixteen-row table
with volatility `[0,...,0,16]` succeeds and caps the outlier to 13; the
output's own statistics are mean 13/16 and std 13/4, and re-running the
gate on that output re-caps 13 to 169/16, so the second run's output
differs from its input — the gate is not a fixed point on its own
successful output. -/
theorem quality_gate_not_idempotent :
    (runPipeline cexFrame0 4).success = true
      ∧ (runPipeline cexFrame0 4).output = some cexFrame1
      ∧ (4 : ℚ) ^ 2 = optVar (readCol .volC (cleanFrame cexFrame0).rows)
      ∧ ((13 : ℚ) / 4) ^ 2 = optVar (readCol .volC (cleanFrame cexFrame1).rows)
      ∧ (runPipeline cexFrame1 (13 / 4)).output ≠ some cexFrame1 := by
  refine ⟨by rw [cex_run0], by rw [cex_run0], ?_, ?_, ?_⟩
  · rw [cex_clean0, cex_col0]
    norm_num [optVar, qVar, qMean, filterMap_id_cons_some, filterMap_id_nil]
  · rw [cex_clean1, cex_col1]
    norm_num [optVar, qVar, qMean, filterMap_id_cons_some, filterMap_id_nil]
  · rw [cex_run1]
    norm_num [cexFrame2, cexFrame1, cexRow]

theorem wit3_clean : cleanFrame witFrame3 = witFrame3 :=
  cleanFrame_id _ (by decide) (by decide) (by decide) (by decide)

theorem wit3_cap : capColumn (readCol .volC witFrame3.rows) 1
    = readCol .volC witFrame3.rows := by
  have hcol : readCol .volC witFrame3.rows = [some 0, some 1, some 2] := rfl
  rw [hcol]
  have hm : optMean [some (0 : ℚ), some 1, some 2] = 1 := by
    norm_num [optMean, qMean, filterMap_id_cons_some, filterMap_id_nil]
  rw [capColumn, hm]
  norm_num [capCell, abs_of_nonneg]

theorem wit3_run : (runPipeline witFrame3 1).output = some witFrame3 := by
  rw [runPipeline_success witFrame3 1 (by decide) (by rw [wit3_clean]; decide)
    (by rw [wit3_clean]; decide), wit3_clean, wit3_cap, writeCol_readCol_self]

/-- Witness for C8: on the three-row table every required column has a
value, the pipeline's persisted output exists, and every required cell of
it is non-missing. -/
theorem output_no_missing_witness :
    (runPipeline witFrame3 1).output = some witFrame3
      ∧ (witFrame3.rows.all
          (fun r => allNumCols.all (fun c => (getCell c r).isSome))) = true := by
  have happ := output_no_missing witFrame3 1 (by decide)
  refine ⟨wit3_run, ?_⟩
  rw [List.all_eq_true]
  intro r hr
  rw [List.all_eq_true]
  intro c _
  exact happ witFrame3 wit3_run r hr c

theorem lookupCol_cons (n : String) (col : Column) (t : DataFrame) (c : String) :
    lookupCol ((n, col) :: t) c = if n = c then some col else lookupCol t c := by
  by_cases h : n = c
  · rw [if_pos h, lookupCol, List.find?_cons_of_pos _ (by simpa using h)]
    rfl
  · rw [if_neg h, lookupCol, List.find?_cons_of_neg _ (by simpa using h)]
    rfl

theorem lookupCol_setCol (df : DataFrame) (k : String) (v : Column) (c : String) :
    lookupCol (setCol df k v) c = if c = k then some v else lookupCol df c := by
  induction df with
  | nil =>
      show lookupCol [(k, v)] c = _
      rw [lookupCol_cons]
      by_cases h : c = k
      · rw [if_pos h.symm, if_pos h]
      · rw [if_neg (fun he : k = c => h he.symm), if_neg h]
  | cons e t ih =>
      rcases e with ⟨n, col⟩
      show lookupCol (if n = k then (k, v) :: t else (n, col) :: setCol t k v) c
        = _
      by_cases hnk : n = k
      · rw [if_pos hnk, lookupCol_cons, lookupCol_cons]
        by_cases hck : c = k
        · rw [if_pos hck.symm, if_pos hck]
        · rw [if_neg (fun he : k = c => hck he.symm), if_neg hck,
            if_neg (fun he : n = c => hck (he.symm.trans hnk))]
      · rw [if_neg hnk, lookupCol_cons, lookupCol_cons, ih]
        by_cases hcn : n = c
        · have hck : ¬ c = k := fun he => hnk (hcn.trans he)
          rw [if_pos hcn, if_neg hck, if_pos hcn]
        · rw [if_neg hcn, if_neg hcn]

/-- C10 amended: `create_features` works on a copy (so, in this pure
embedding, the argument itself cannot change) and agrees with its input on
every column whose name is not among the eight regime-feature columns it
writes; a pre-existing column bearing one of those names is overwritten
(see `create_features_overwrites`). -/
theorem create_features_preserves (df : DataFrame) (c : String)
    (h : c ∉ regimeAddedCols) :
    lookupCol (createFeatures df) c = lookupCol df c := by
  simp only [regimeAddedCols, List.mem_cons, List.not_mem_nil, or_false,
    not_or] at h
  obtain ⟨h1, h2, h3, h4, h5, h6, h7, h8⟩ := h
  simp [createFeatures, lookupCol_setCol, h1, h2, h3, h4, h5, h6, h7, h8]

/-- Witness for the amended C10: the `realized_volatility` column of the
input is untouched by `create_features`. -/
theorem create_features_preserves_witness :
    ("realized_volatility" ∉ regimeAddedCols)
      ∧ lookupCol (createFeatures dfCex) "realized_volatility"
        = lookupCol dfCex "realized_volatility" :=
  ⟨by decide, create_features_preserves dfCex "realized_volatility" (by decide)⟩

/-- C10 counterexample: on a frame that already has a `vol_regime` column
(all `Medium`), `create_features` overwrites it with the freshly computed
labels `[Low, Medium, High]`, so the output does not agree with the input
on every pre-existing column. -/
theorem create_features_overwrites :
    lookupCol (createFeatures dfCex) "vol_regime"
      ≠ lookupCol dfCex "vol_regime" := by
  have hvol : numColumn dfCex "realized_volatility" = [1, 2, 3] := rfl
  have hsorted : sortedVals [1, 2, 3] = [1, 2, 3] :=
    List.Sorted.insertionSort_eq (by decide)
  have hq1 : quantile3 [1, 2, 3] 1 = 5 / 3 := by
    simp only [quantile3, nthSorted, hsorted]
    norm_num
  have hq2 : quantile3 [1, 2, 3] 2 = 7 / 3 := by
    simp only [quantile3, nthSorted, hsorted]
    norm_num
  have hlab : qcutLabels3 [1, 2, 3] = [.low, .medium, .high] := by
    rw [qcutLabels3, hq1, hq2]
    norm_num [regimeOf]
  have hlhs : lookupCol (createFeatures dfCex) "vol_regime"
      = some ((qcutLabels3 (numColumn dfCex "realized_volatility")).map
          Cell.cat) := by
    simp [createFeatures, lookupCol_setCol]
  rw [hlhs, hvol, hlab,
    show lookupCol dfCex "vol_regime"
      = some [Cell.cat .medium, Cell.cat .medium, Cell.cat .medium] from rfl]
  simp

theorem regime_count_total (l : List Regime) :
    l.count .low + l.count .medium + l.count .high = l.length := by
  induction l with
  | nil => rfl
  | cons a t ih =>
      cases a <;> simp [List.count_cons] <;> omega

theorem countP_disjoint_or {α : Type} (l : List α) (p q : α → Bool)
    (h : ∀ a ∈ l, ¬(p a = true ∧ q a = true)) :
    l.countP (fun a => p a || q a) = l.countP p + l.countP q := by
  induction l with
  | nil => rfl
  | cons a t ih =>
      have ht := ih (fun x hx => h x (List.mem_cons_of_mem _ hx))
      have ha := h a (List.mem_cons_self _ _)
      rw [List.countP_cons, List.countP_cons, List.countP_cons, ht]
      cases hp : p a <;> cases hq : q a
      · simp
      · simp
        omega
      · simp
        omega
      · exact absurd ⟨hp, hq⟩ ha

theorem sorted_getD_mono (ys : List ℚ) (hs : List.Sorted (· ≤ ·) ys)
    {i j : ℕ} (hij : i ≤ j) (hj : j < ys.length) :
    ys.getD i 0 ≤ ys.getD j 0 := by
  rcases Nat.eq_or_lt_of_le hij with rfl | hlt
  · exact le_refl _
  · rw [List.getD_eq_getElem _ _ (Nat.lt_trans hlt hj),
      List.getD_eq_getElem _ _ hj]
    have := List.Sorted.rel_get_of_lt hs
      (a := ⟨i, Nat.lt_trans hlt hj⟩) (b := ⟨j, hj⟩) (by simpa using hlt)
    simpa using this

theorem countP_le_of_sorted (ys : List ℚ) (q : ℚ) :
    List.Sorted (· ≤ ·) ys → ∀ k, k < ys.length → ys.getD k 0 ≤ q →
      (∀ _ : k + 1 < ys.length, q < ys.getD (k + 1) 0) →
      ys.countP (fun v => decide (v ≤ q)) = k + 1 := by
  induction ys with
  | nil =>
      intro _ k hk
      simp at hk
  | cons y t ih =>
      intro hs k hk hle hgt
      obtain ⟨hy, hts⟩ := List.sorted_cons.1 hs
      cases k with
      | zero =>
          have hyq : y ≤ q := by simpa using hle
          have h0 : t.countP (fun v => decide (v ≤ q)) = 0 := by
            rw [List.countP_eq_zero]
            intro z hz
            simp only [decide_eq_true_eq, not_le]
            cases t with
            | nil => simp at hz
            | cons w t2 =>
                have hq : q < w := by
                  have := hgt (by simp)
                  simpa using this
                have hwz : w ≤ z := by
                  rcases List.mem_cons.1 hz with rfl | hz2
                  · exact le_refl _
                  · exact (List.sorted_cons.1 hts).1 z hz2
                linarith
          rw [List.countP_cons, h0]
          simp [hyq]
      | succ k =>
          have hkt : k < t.length := by simpa using hk
          have hle2 : t.getD k 0 ≤ q := by simpa using hle
          have hyq : y ≤ q := by
            have hmem : t.getD k 0 ∈ t := by
              rw [List.getD_eq_getElem _ _ hkt]
              exact List.getElem_mem _
            exact le_trans (hy _ hmem) hle2
          rw [List.countP_cons,
            ih hts k hkt hle2 (fun h1 => by simpa using hgt (by simpa using h1))]
          simp [hyq]

/-- C9: with `n_regimes = 3` and no ties at the two interior quantile
boundaries (the order statistics adjacent to each interpolation position
are strictly separated), the `qcut` labels partition the rows into three
groups whose sizes differ pairwise by at most 1 and cover the table. -/
theorem equal_frequency_binning (xs : List ℚ) (hlen : 2 ≤ xs.length)
    (hb1 : nthSorted xs ((xs.length - 1) / 3)
      < nthSorted xs ((xs.length - 1) / 3 + 1))
    (hb2 : nthSorted xs (2 * (xs.length - 1) / 3)
      < nthSorted xs (2 * (xs.length - 1) / 3 + 1)) :
    (∀ a b : Regime, regimeCount xs a ≤ regimeCount xs b + 1)
      ∧ regimeCount xs .low + regimeCount xs .medium + regimeCount xs .high
        = xs.length := by
  have hys_sorted : List.Sorted (· ≤ ·) (sortedVals xs) :=
    List.sorted_insertionSort _ xs
  have hys_perm : (sortedVals xs).Perm xs := List.perm_insertionSort _ xs
  have hys_len : (sortedVals xs).length = xs.length := hys_perm.length_eq
  have hk1m : (xs.length - 1) / 3 + 1 ≤ xs.length - 1 := by omega
  have hk2m : 2 * (xs.length - 1) / 3 + 1 ≤ xs.length - 1 := by omega
  have hq1def : quantile3 xs 1 = nthSorted xs ((xs.length - 1) / 3)
      + (((xs.length - 1) % 3 : ℕ) : ℚ) / 3
        * (nthSorted xs ((xs.length - 1) / 3 + 1)
          - nthSorted xs ((xs.length - 1) / 3)) := by
    simp only [quantile3, one_mul]
  have hq2def : quantile3 xs 2 = nthSorted xs (2 * (xs.length - 1) / 3)
      + (((2 * (xs.length - 1)) % 3 : ℕ) : ℚ) / 3
        * (nthSorted xs (2 * (xs.length - 1) / 3 + 1)
          - nthSorted xs (2 * (xs.length - 1) / 3)) := rfl
  have hfrac1_nonneg : 0 ≤ (((xs.length - 1) % 3 : ℕ) : ℚ) / 3 := by positivity
  have hfrac2_nonneg : 0 ≤ (((2 * (xs.length - 1)) % 3 : ℕ) : ℚ) / 3 := by
    positivity
  have hfrac1_lt : (((xs.length - 1) % 3 : ℕ) : ℚ) / 3 < 1 := by
    have h3 : (xs.length - 1) % 3 < 3 := Nat.mod_lt _ (by norm_num)
    have h3q : (((xs.length - 1) % 3 : ℕ) : ℚ) < 3 := by exact_mod_cast h3
    linarith
  have hfrac2_lt : (((2 * (xs.length - 1)) % 3 : ℕ) : ℚ) / 3 < 1 := by
    have h3 : (2 * (xs.length - 1)) % 3 < 3 := Nat.mod_lt _ (by norm_num)
    have h3q : (((2 * (xs.length - 1)) % 3 : ℕ) : ℚ) < 3 := by exact_mod_cast h3
    linarith
  have hd1 : 0 < nthSorted xs ((xs.length - 1) / 3 + 1)
      - nthSorted xs ((xs.length - 1) / 3) := by linarith
  have hd2 : 0 < nthSorted xs (2 * (xs.length - 1) / 3 + 1)
      - nthSorted xs (2 * (xs.length - 1) / 3) := by linarith
  have hq1_lb : nthSorted xs ((xs.length - 1) / 3) ≤ quantile3 xs 1 := by
    have hprod := mul_nonneg hfrac1_nonneg (le_of_lt hd1)
    rw [hq1def]
    linarith
  have hq1_ub : quantile3 xs 1 < nthSorted xs ((xs.length - 1) / 3 + 1) := by
    have hprod := mul_lt_mul_of_pos_right hfrac1_lt hd1
    rw [hq1def]
    linarith
  have hq2_lb : nthSorted xs (2 * (xs.length - 1) / 3) ≤ quantile3 xs 2 := by
    have hprod := mul_nonneg hfrac2_nonneg (le_of_lt hd2)
    rw [hq2def]
    linarith
  have hq2_ub : quantile3 xs 2
      < nthSorted xs (2 * (xs.length - 1) / 3 + 1) := by
    have hprod := mul_lt_mul_of_pos_right hfrac2_lt hd2
    rw [hq2def]
    linarith
  have hcount1 : xs.countP (fun v => decide (v ≤ quantile3 xs 1))
      = (xs.length - 1) / 3 + 1 := by
    rw [← hys_perm.countP_eq]
    exact countP_le_of_sorted (sortedVals xs) (quantile3 xs 1) hys_sorted
      ((xs.length - 1) / 3) (by rw [hys_len]; omega) hq1_lb (fun _ => hq1_ub)
  have hcount2 : xs.countP (fun v => decide (v ≤ quantile3 xs 2))
      = 2 * (xs.length - 1) / 3 + 1 := by
    rw [← hys_perm.countP_eq]
    exact countP_le_of_sorted (sortedVals xs) (quantile3 xs 2) hys_sorted
      (2 * (xs.length - 1) / 3) (by rw [hys_len]; omega) hq2_lb
      (fun _ => hq2_ub)
  have hq12 : quantile3 xs 1 ≤ quantile3 xs 2 := by
    by_cases hcase : (xs.length - 1) / 3 + 1 ≤ 2 * (xs.length - 1) / 3
    · have hmono : nthSorted xs ((xs.length - 1) / 3 + 1)
          ≤ nthSorted xs (2 * (xs.length - 1) / 3) :=
        sorted_getD_mono _ hys_sorted hcase (by rw [hys_len]; omega)
      linarith
    · have hk12 : (xs.length - 1) / 3 = 2 * (xs.length - 1) / 3 := by omega
      have hr1 : (xs.length - 1) % 3 = 1 := by omega
      have hr2 : (2 * (xs.length - 1)) % 3 = 2 := by omega
      rw [hq1def, hq2def, hr1, hr2, ← hk12]
      push_cast
      nlinarith [hd1]
  have hlow : ∀ v : ℚ,
      (regimeOf (quantile3 xs 1) (quantile3 xs 2) v == Regime.low)
        = decide (v ≤ quantile3 xs 1) := by
    intro v
    rw [regimeOf]
    split_ifs with h1 h2
    · simp [h1]
    · simp [h1]
    · simp [h1]
  have hlowmed : ∀ v : ℚ,
      ((regimeOf (quantile3 xs 1) (quantile3 xs 2) v == Regime.low)
          || (regimeOf (quantile3 xs 1) (quantile3 xs 2) v == Regime.medium))
        = decide (v ≤ quantile3 xs 2) := by
    intro v
    rw [regimeOf]
    split_ifs with h1 h2
    · simp [le_trans h1 hq12]
    · simp [h2]
    · simp [h2]
  have hdisj : ∀ v ∈ xs,
      ¬((regimeOf (quantile3 xs 1) (quantile3 xs 2) v == Regime.low) = true
        ∧ (regimeOf (quantile3 xs 1) (quantile3 xs 2) v == Regime.medium)
          = true) := by
    intro v _
    rcases h : regimeOf (quantile3 xs 1) (quantile3 xs 2) v <;> simp [h]
  have hclow : regimeCount xs .low = (xs.length - 1) / 3 + 1 := by
    rw [regimeCount, qcutLabels3, List.count_eq_countP, List.countP_map, ←
      hcount1]
    simp only [Function.comp_def]
    exact List.countP_congr (fun v _ => by rw [hlow v])
  have hcmed : regimeCount xs .low + regimeCount xs .medium
      = 2 * (xs.length - 1) / 3 + 1 := by
    rw [regimeCount, regimeCount, qcutLabels3, List.count_eq_countP,
      List.count_eq_countP, List.countP_map, List.countP_map]
    simp only [Function.comp_def]
    rw [← countP_disjoint_or xs
        (fun v => regimeOf (quantile3 xs 1) (quantile3 xs 2) v == Regime.low)
        (fun v => regimeOf (quantile3 xs 1) (quantile3 xs 2) v == Regime.medium)
        hdisj, ← hcount2]
    exact List.countP_congr (fun v _ => by rw [hlowmed v])
  have htot : regimeCount xs .low + regimeCount xs .medium
      + regimeCount xs .high = xs.length := by
    rw [regimeCount, regimeCount, regimeCount, regime_count_total,
      qcutLabels3, List.length_map]
  refine ⟨?_, htot⟩
  intro a b
  cases a <;> cases b <;> omega

/-- Witness for C9 on the column `[1, 2, 3]`: the three groups have one
row each. -/
theorem equal_frequency_binning_witness :
    (2 ≤ ([1, 2, 3] : List ℚ).length)
      ∧ (∀ a b : Regime,
          regimeCount [1, 2, 3] a ≤ regimeCount [1, 2, 3] b + 1)
      ∧ regimeCount [1, 2, 3] .low + regimeCount [1, 2, 3] .medium
        + regimeCount [1, 2, 3] .high = ([1, 2, 3] : List ℚ).length :=
  ⟨by norm_num,
    (equal_frequency_binning [1, 2, 3] (by norm_num) (by decide) (by decide)).1,
    (equal_frequency_binning [1, 2, 3] (by norm_num) (by decide)
      (by decide)).2⟩

end BtcVol
